import Mathlib

/-!
Verification of the Streaming Conversation Session Manager of the
giga_agent chat front-end: the identity context resolver
(`useUserConfig`), the stream-open gating of the chat controller
(`threadConfig`), the repeated-error circuit breaker (`ChatError`),
the bounded chat history store (`useChatHistory`), the identity-scoped
clearing of the history on login/logout (`AuthContext`), and the
fire-and-forget Redis session registration (`onThreadId`,
`addThreadToRedisSession`).

Each definition is a shallow embedding of the corresponding TypeScript
function; JavaScript strings are modelled as Lean `String`, JS
`trim`/`toLowerCase`/`slice` as the explicit char-list operations
`jsTrim`/`lowerStr`/`jsSlice`, timestamps (`Date.now()`) as `Nat`
parameters, and `localStorage` as explicit state.
-/

namespace GigaAgent

/-- Model of JavaScript `String.prototype.toLowerCase` (ASCII-faithful). -/
def lowerStr (s : String) : String :=
  String.mk (s.data.map Char.toLower)

/-- Model of JavaScript `String.prototype.trim`: drop whitespace from both
ends of the character list. -/
def jsTrim (s : String) : String :=
  String.mk (((s.data.dropWhile Char.isWhitespace).reverse.dropWhile
      Char.isWhitespace).reverse)

/-- Model of JavaScript `s.slice(0, n)`: the first `n` characters. -/
def jsSlice (s : String) (n : Nat) : String :=
  String.mk (s.data.take n)

/-- The `User` record of `AuthContext.tsx`. -/
structure UserRec where
  user_id : String
  username : String
  email : Option String
deriving Repr, DecidableEq

/-- One authentication snapshot as exposed by `useAuth()`:
`{ user, loading, isAuthenticated }` (plus the bearer token). -/
structure AuthSnapshot where
  user : Option UserRec
  token : Option String
  loading : Bool
  isAuthenticated : Bool
deriving Repr, DecidableEq

/-- The `UserConfig` interface of `useUserConfig.tsx`. -/
structure UserConfig where
  user_id : String
deriving Repr, DecidableEq

/-- Truthiness of the JS expression `user?.user_id`: `none` when there is
no user or the identifier is the empty string. -/
def rawUserId (a : AuthSnapshot) : Option String :=
  match a.user with
  | none => none
  | some u => if u.user_id = "" then none else some u.user_id

/-- Shallow embedding of `useUserConfig` (src/front/src/hooks/useUserConfig.tsx):
returns the `configurable` payload, or `none` while loading, when
unauthenticated, when `user?.user_id` is falsy, or when the trimmed
identifier is empty or `"anonymous"` case-insensitively. -/
def useUserConfig (a : AuthSnapshot) : Option UserConfig :=
  if a.loading then none
  else if ¬a.isAuthenticated ∨ rawUserId a = none then none
  else
    match a.user with
    | none => none
    | some u =>
      let userId := jsTrim u.user_id
      if userId = "" ∨ lowerStr userId = "anonymous" then none
      else some ⟨userId⟩

/-- Shallow embedding of `useUserId` (src/front/src/hooks/useUserConfig.tsx):
the raw identifier when authenticated and `user?.user_id` is truthy. -/
def useUserId (a : AuthSnapshot) : Option String :=
  if ¬a.isAuthenticated ∨ rawUserId a = none then none
  else rawUserId a

/-- Shallow embedding of the `threadConfig` memo of `Chat.tsx`: the
`configurable` object handed to `useStream`.  `none` means the stream is
not created (no stream-open network action); `some cfg` means the stream
is opened with `cfg`.  Mirrors the source's order: ready `useUserConfig`
first, then the loading / unauthenticated / falsy-id guards, then the
manual fallback built from the raw `user.user_id`. -/
def threadConfig (a : AuthSnapshot) : Option UserConfig :=
  if (match useUserConfig a with
      | some cfg => cfg.user_id != ""
      | none => false) then
    useUserConfig a
  else if a.loading then none
  else if ¬a.isAuthenticated ∨ rawUserId a = none then none
  else
    match a.user with
    | none => none
    | some u => some ⟨u.user_id⟩

/-- Outcome of the retry handler of `ChatError` (ChatHistoryList.tsx):
either a rejection (logged, no network submit) or a submit carrying the
`configurable` payload. -/
inductive RetryOutcome where
  | rejectedNoAuth
  | rejectedInvalidId (uid : String)
  | submitted (cfg : UserConfig)
deriving Repr, DecidableEq

/-- Shallow embedding of `handleRetry` (src/front/src/components/ChatHistoryList.tsx):
reject when unauthenticated or `userId` is falsy; otherwise take the
ready config (or the raw-id fallback) and reject when its `user_id` is
falsy or trims case-insensitively to `"anonymous"`; otherwise submit. -/
def handleRetry (a : AuthSnapshot) : RetryOutcome :=
  if ¬a.isAuthenticated ∨ useUserId a = none then .rejectedNoAuth
  else
    let configurable : UserConfig :=
      match useUserConfig a with
      | some cfg => cfg
      | none => ⟨(useUserId a).getD ""⟩
    if configurable.user_id = "" ∨
        lowerStr (jsTrim configurable.user_id) = "anonymous" then
      .rejectedInvalidId configurable.user_id
    else .submitted configurable

/-! Error repetition circuit breaker (`ChatError` in ChatHistoryList.tsx). -/

/-- One entry of the error ring: `{ error, timestamp }`. -/
structure ErrRec where
  error : String
  timestamp : Nat
deriving Repr, DecidableEq

/-- The breaker state held by `ChatError`: the ring `errorHistoryRef`,
the `repeatedError` value and the `shouldStop` flag. -/
structure BreakerState where
  errorHistory : List ErrRec
  repeatedError : Option String
  shouldStop : Bool
deriving Repr, DecidableEq

/-- Initial breaker state. -/
def breakerInit : BreakerState := ⟨[], none, false⟩

/-- Model of JavaScript `l.slice(-n)`: the last `n` elements. -/
def lastN (n : Nat) (l : List α) : List α :=
  l.drop (l.length - n)

/-- Shallow embedding of the error-observing effect of `ChatError`: on an
error event (`errorMessage`, with the stream's `isLoading` flag and the
debug-mode setting), push the record, keep the last 5, and once at least
3 records exist compare the last 3 against the current message: all
equal with debug off trips the breaker, otherwise it resets the
repeated-error state. -/
def onErrorEvent (s : BreakerState) (errorMessage : String)
    (isLoading debugMode : Bool) (now : Nat) : BreakerState :=
  if errorMessage = "" ∨ isLoading = true then s
  else
    let hist := lastN 5 (s.errorHistory ++ [⟨errorMessage, now⟩])
    if 3 ≤ hist.length then
      let lastThree := lastN 3 hist
      if lastThree.all (fun r => r.error == errorMessage) ∧ debugMode = false then
        ⟨hist, some errorMessage, true⟩
      else
        ⟨hist, none, false⟩
    else
      ⟨hist, s.repeatedError, s.shouldStop⟩

/-- Shallow embedding of the reset effect of `ChatError`: when the stream
has no error and is not loading, clear the ring and untrip the breaker. -/
def onSuccessCheck (s : BreakerState) (hasError isLoading : Bool) : BreakerState :=
  if hasError = false ∧ isLoading = false then breakerInit else s

/-- The error view rendered by `ChatError`: nothing, the terminal tripped
view, the plain non-retryable view, or the view carrying the retry
affordance. -/
inductive ErrorView where
  | nothing
  | tripped (text : String)
  | plain (text : String)
  | retry
deriving Repr, DecidableEq

/-- Header of the tripped view's text, before the repeated error text. -/
def trippedHeader : String :=
  "Критическая ошибка: повторяющаяся ошибка обнаружена 3 раза подряд\n"

/-- Footer of the tripped view's text: the statement that execution
stopped. -/
def trippedFooter : String :=
  "\nВыполнение остановлено. Включите режим отладки для детальной информации."

/-- Shallow embedding of the render logic of `ChatError`: no view without
an error or while loading; the terminal tripped view when the breaker is
tripped with a truthy `repeatedError` and debug off; otherwise the plain
non-retryable view when debug is off; otherwise the retry view. -/
def renderError (s : BreakerState) (errorMessage : String)
    (isLoading debugMode : Bool) : ErrorView :=
  if errorMessage = "" ∨ isLoading = true then .nothing
  else if s.shouldStop &&
      (match s.repeatedError with
       | some e => e != ""
       | none => false) && !debugMode then
    .tripped (trippedHeader ++
      (match s.repeatedError with | some e => e | none => "") ++ trippedFooter)
  else if debugMode = false then
    .plain ("Произошла ошибка: " ++ errorMessage)
  else .retry

/-! Chat history store (`useChatHistory`, src/unnamed/part_003). -/

/-- The `SavedChat` record. -/
structure SavedChat where
  threadId : String
  title : String
  createdAt : Nat
  updatedAt : Nat
  firstMessage : Option String
deriving Repr, DecidableEq

/-- The cap on stored chats (`MAX_CHATS = 50`). -/
def MAX_CHATS : Nat := 50

/-- Does `l` start with `pat`, comparing characters case-insensitively?
Models one position of the `/gi` regex match. -/
def matchesCI (pat l : List Char) : Bool :=
  (l.take pat.length).map Char.toLower == pat

/-- One step of the left-to-right scan of `stripCI`, structurally
recursive on a fuel counter so that it reduces in the kernel; a fuel of
at least the list's length never runs out. -/
def stripCIAux (pat : List Char) : Nat → List Char → List Char
  | _, [] => []
  | 0, l => l
  | fuel + 1, c :: cs =>
    if matchesCI pat (c :: cs) && pat.length != 0 then
      stripCIAux pat fuel ((c :: cs).drop pat.length)
    else
      c :: stripCIAux pat fuel cs

/-- One left-to-right pass removing every case-insensitive occurrence of
`pat` from `l`: the model of `text.replace(/pat/gi, "")` for a literal
pattern. -/
def stripCI (pat l : List Char) : List Char :=
  stripCIAux pat l.length l

/-- Shallow embedding of `cleanMessage`: remove the `<task>` tags, then
the `</task>` tags (two sequential global case-insensitive replaces),
then trim. -/
def cleanMessage (text : String) : String :=
  jsTrim (String.mk (stripCI "</task>".data (stripCI "<task>".data text.data)))

/-- Truthiness of `x && x.trim()` for an optional JS string. -/
def optNonBlank : Option String → Bool
  | some s => jsTrim s != ""
  | none => false

/-- The title computed by `saveChat`: a non-blank `customTitle` wins
(trimmed, cut to 100); else a non-blank `firstMessage` is cleaned and cut
to 100, falling back to the dated placeholder when that leaves nothing;
else the dated placeholder.  `dateStr` stands for
`new Date().toLocaleDateString("ru-RU")`. -/
def chatTitle (firstMessage customTitle : Option String) (dateStr : String) : String :=
  if optNonBlank customTitle then
    jsSlice (jsTrim (customTitle.getD "")) 100
  else if optNonBlank firstMessage then
    if jsSlice (cleanMessage (firstMessage.getD "")) 100 = "" then
      "Чат " ++ dateStr
    else jsSlice (cleanMessage (firstMessage.getD "")) 100
  else "Чат " ++ dateStr

/-- The ordering used by every `sort((a, b) => b.updatedAt - a.updatedAt)`:
`a` comes before `b` when `a.updatedAt ≥ b.updatedAt`. -/
def chatLE (a b : SavedChat) : Prop := b.updatedAt ≤ a.updatedAt

instance : DecidableRel chatLE := fun a b => Nat.decLe b.updatedAt a.updatedAt

instance : IsTotal SavedChat chatLE :=
  ⟨fun a b => Nat.le_total b.updatedAt a.updatedAt⟩

instance : IsTrans SavedChat chatLE :=
  ⟨fun _ _ _ h1 h2 => Nat.le_trans h2 h1⟩

/-- The stable descending sort by `updatedAt` applied after every
mutation. -/
def sortChats (l : List SavedChat) : List SavedChat :=
  l.insertionSort chatLE

/-- JavaScript `firstMessage || old`: the new preview when it is a truthy
string, otherwise the old one. -/
def jsOrOpt (fm old : Option String) : Option String :=
  match fm with
  | some m => if m = "" then old else some m
  | none => old

/-- The in-place update `newChats[existingIndex] = { ...old, title,
updatedAt, firstMessage }`: rewrite the first record whose `threadId`
matches. -/
def updateExistingChat (tid title : String) (now : Nat)
    (fm : Option String) : List SavedChat → List SavedChat
  | [] => []
  | c :: cs =>
    if c.threadId == tid then
      { c with title := title, updatedAt := now,
               firstMessage := jsOrOpt fm c.firstMessage } :: cs
    else c :: updateExistingChat tid title now fm cs

/-- `saveChat` before the final `slice(0, MAX_CHATS)`: update in place
when the `threadId` exists, otherwise prepend a fresh record; then sort
descending by `updatedAt`. -/
def saveChatAll (tid : String) (firstMessage customTitle : Option String)
    (now : Nat) (dateStr : String) (prevChats : List SavedChat) : List SavedChat :=
  let title := chatTitle firstMessage customTitle dateStr
  let newChats :=
    if prevChats.any (fun c => c.threadId == tid) then
      updateExistingChat tid title now firstMessage prevChats
    else
      ⟨tid, title, now, now, firstMessage⟩ :: prevChats
  sortChats newChats

/-- Shallow embedding of `saveChat` (the store's upsert). -/
def saveChat (tid : String) (firstMessage customTitle : Option String)
    (now : Nat) (dateStr : String) (prevChats : List SavedChat) : List SavedChat :=
  (saveChatAll tid firstMessage customTitle now dateStr prevChats).take MAX_CHATS

/-- Shallow embedding of `deleteChat`: drop the record, then
`slice(0, MAX_CHATS)`. -/
def deleteChat (tid : String) (prevChats : List SavedChat) : List SavedChat :=
  (prevChats.filter (fun c => ¬(c.threadId == tid))).take MAX_CHATS

/-- `updateChatTitle` before the final `slice(0, MAX_CHATS)`: rewrite the
title and bump `updatedAt` of every record with the `threadId`, then
sort. -/
def updateChatTitleAll (tid title : String) (now : Nat)
    (prevChats : List SavedChat) : List SavedChat :=
  sortChats (prevChats.map fun c =>
    if c.threadId == tid then { c with title := title, updatedAt := now } else c)

/-- Shallow embedding of `updateChatTitle` (the store's rename). -/
def updateChatTitle (tid title : String) (now : Nat)
    (prevChats : List SavedChat) : List SavedChat :=
  (updateChatTitleAll tid title now prevChats).take MAX_CHATS

/-- One mutation of the chat history store. -/
inductive HistOp where
  | save (tid : String) (firstMessage customTitle : Option String)
      (now : Nat) (dateStr : String)
  | rename (tid title : String) (now : Nat)
  | remove (tid : String)
deriving Repr

/-- Apply one mutation. -/
def applyOp : HistOp → List SavedChat → List SavedChat
  | .save tid fm ct now ds, l => saveChat tid fm ct now ds l
  | .rename tid title now, l => updateChatTitle tid title now l
  | .remove tid, l => deleteChat tid l

/-- Apply a sequence of mutations, oldest first. -/
def applyOps (ops : List HistOp) (l : List SavedChat) : List SavedChat :=
  ops.foldl (fun s op => applyOp op s) l

/-- The store invariant: at most `MAX_CHATS` records, sorted descending
by `updatedAt`, `threadId` unique. -/
def HistoryInv (l : List SavedChat) : Prop :=
  l.length ≤ MAX_CHATS ∧ l.Sorted chatLE ∧ (l.map (·.threadId)).Nodup

/-! Identity-scoped history clearing (`AuthContext.tsx` login/logout and
the load effect of `useChatHistory`). -/

/-- The state relevant to identity-scoped history: the current user's
identifier (the in-memory `user` of `AuthContext`) and the durable
`localStorage` record under `giga_agent_chat_history` (`none` = key
absent). -/
structure AuthStoreState where
  user : Option String
  chatStorage : Option (List SavedChat)
deriving Repr

/-- The in-memory chat list of `useChatHistory` right after its load
effect ran: empty without a user, else the stored collection sorted
descending by `updatedAt` (empty when the key is absent). -/
def chatsView (s : AuthStoreState) : List SavedChat :=
  match s.user with
  | none => []
  | some _ =>
    match s.chatStorage with
    | none => []
    | some l => sortChats l

/-- Shallow embedding of `logout` (AuthContext.tsx): the user is cleared
and the chat-history key removed. -/
def logout (_s : AuthStoreState) : AuthStoreState :=
  ⟨none, none⟩

/-- Shallow embedding of the identity check inside `login`
(AuthContext.tsx): when a truthy current `user_id` differs from the new
one, the chat-history key is removed; then the new user is recorded. -/
def login (newUserId : String) (s : AuthStoreState) : AuthStoreState :=
  let storage :=
    match s.user with
    | some cur => if cur ≠ "" ∧ cur ≠ newUserId then none else s.chatStorage
    | none => s.chatStorage
  ⟨some newUserId, storage⟩

/-! External session sync client (`redisApi`, Chat.tsx `onThreadId`). -/

/-- The structured acknowledgement `RedisSessionResponse`. -/
structure RedisSessionResponse where
  success : Bool
  message : String
  user_id : Option String
  thread_id : Option String
deriving Repr, DecidableEq

/-- An HTTP response as seen by `addThreadToRedisSession`: the `ok`
flag, the parsed body on success, and the `detail` field of the error
body (after the parse-failure fallback to "Неизвестная ошибка"). -/
structure HttpResponse where
  ok : Bool
  data : RedisSessionResponse
  detail : Option String
deriving Repr

/-- Shallow embedding of `addThreadToRedisSession` (redisApi): a 2xx
response yields the parsed acknowledgement, a non-2xx response throws an
error carrying the server detail or the generic fallback message. -/
def addThreadToRedisSession (resp : HttpResponse) : Except String RedisSessionResponse :=
  if resp.ok then .ok resp.data
  else .error
    (match resp.detail with
     | some d => if d = "" then "Не удалось добавить thread_id в сеанс" else d
     | none => "Не удалось добавить thread_id в сеанс")

/-- The observable outcome of the `onThreadId` callback of `Chat.tsx`:
the active thread recorded by `setCurrentThreadId`, the navigation
target, the history store after `saveChat`, the in-chat debug messages,
and the console diagnostics. -/
structure OnThreadIdResult where
  currentThreadId : Option String
  navTarget : Option String
  history : List SavedChat
  debugMessages : List String
  diagnostics : List String
deriving Repr

/-- Shallow embedding of `onThreadId` (Chat.tsx): record the thread,
navigate, upsert the history, then — only when authenticated with a
truthy `user_id` and token — make the best-effort Redis registration,
whose failure is caught and logged as a diagnostic and whose success in
debug mode adds a debug message.  `redisResult` is the outcome of the
awaited `addThreadToRedisSession` call (an `error` also covers a network
failure). -/
def onThreadId (tid : String) (a : AuthSnapshot) (debugMode : Bool)
    (redisResult : Except String RedisSessionResponse)
    (now : Nat) (dateStr : String) (history : List SavedChat) : OnThreadIdResult :=
  let base : OnThreadIdResult :=
    { currentThreadId := some tid
      navTarget := some ("/threads/" ++ tid)
      history := saveChat tid none none now dateStr history
      debugMessages := []
      diagnostics := [] }
  if a.isAuthenticated ∧ rawUserId a ≠ none ∧ a.token ≠ none then
    match redisResult with
    | .ok r =>
      if debugMode then
        { base with debugMessages := ["Redis обновлен: " ++ r.message] }
      else base
    | .error e =>
      { base with diagnostics :=
          ["⚠️ Не удалось обновить Redis при создании потока: " ++ e] }
  else base

/-! Helper lemmas. -/

theorem dropWhile_dropWhile (p : α → Bool) (l : List α) :
    (l.dropWhile p).dropWhile p = l.dropWhile p := by
  induction l with
  | nil => rfl
  | cons c cs ih =>
    by_cases h : p c
    · simp [List.dropWhile_cons, h, ih]
    · simp [List.dropWhile_cons, h]

theorem head?_dropWhile_not (p : α → Bool) (l : List α) :
    ∀ c, (l.dropWhile p).head? = some c → p c = false := by
  induction l with
  | nil => intro c h; simp at h
  | cons b bs ih =>
    intro c h
    by_cases hb : p b
    · exact ih c (by simpa [List.dropWhile_cons, hb] using h)
    · simp [List.dropWhile_cons, hb] at h
      subst h
      simpa using hb

theorem dropWhile_eq_self_of_head (p : α → Bool) (l : List α)
    (h : ∀ c, l.head? = some c → p c = false) : l.dropWhile p = l := by
  cases l with
  | nil => rfl
  | cons c cs => simp [List.dropWhile_cons, h c rfl]

theorem exists_append_dropWhile (p : α → Bool) (l : List α) :
    ∃ t, t ++ l.dropWhile p = l := by
  induction l with
  | nil => exact ⟨[], rfl⟩
  | cons c cs ih =>
    by_cases h : p c
    · obtain ⟨t, ht⟩ := ih
      exact ⟨c :: t, by simp [List.dropWhile_cons, h, ht]⟩
    · exact ⟨[], by simp [List.dropWhile_cons, h]⟩

/-- The right-trim used by `jsTrim`. -/
def trimR (p : α → Bool) (l : List α) : List α :=
  (l.reverse.dropWhile p).reverse

theorem trimR_head (p : α → Bool) (l : List α)
    (h : ∀ c, l.head? = some c → p c = false) :
    ∀ c, (trimR p l).head? = some c → p c = false := by
  intro c hc
  obtain ⟨t, ht⟩ := exists_append_dropWhile p l.reverse
  have hl : trimR p l ++ t.reverse = l := by
    have := congrArg List.reverse ht
    simpa [trimR, List.reverse_append] using this
  cases hx : trimR p l with
  | nil => rw [hx] at hc; simp at hc
  | cons d ds =>
    rw [hx] at hc
    simp at hc
    subst hc
    apply h
    rw [← hl, hx]
    rfl

theorem trimR_trimR (p : α → Bool) (l : List α) :
    trimR p (trimR p l) = trimR p l := by
  simp [trimR, dropWhile_dropWhile]

theorem jsTrim_idem (s : String) : jsTrim (jsTrim s) = jsTrim s := by
  cases s with
  | mk l =>
    show String.mk _ = String.mk _
    set p := Char.isWhitespace
    have hdata : (jsTrim (String.mk l)).data = trimR p (l.dropWhile p) := rfl
    have hhead : ∀ c, (trimR p (l.dropWhile p)).head? = some c → p c = false :=
      trimR_head p (l.dropWhile p) (head?_dropWhile_not p l)
    show String.mk (trimR p ((trimR p (l.dropWhile p)).dropWhile p)) = _
    rw [dropWhile_eq_self_of_head p _ hhead, trimR_trimR]
    rfl

theorem jsTrim_empty : jsTrim "" = "" := rfl

theorem ne_empty_of_jsTrim_ne (s : String) (h : jsTrim s ≠ "") : s ≠ "" := by
  intro hs
  exact h (hs ▸ jsTrim_empty)

theorem jsSlice_ne_empty (s : String) (n : Nat) (hs : s ≠ "") (hn : 0 < n) :
    jsSlice s n ≠ "" := by
  cases s with
  | mk l =>
    cases l with
    | nil => exact absurd rfl hs
    | cons c cs =>
      cases n with
      | zero => exact absurd hn (by simp)
      | succ m =>
        simp only [jsSlice, List.take_succ_cons]
        intro h
        have : (String.mk (c :: cs.take m)).data = ("" : String).data :=
          congrArg String.data h
        simp at this

theorem lastN_length (n : Nat) (l : List α) :
    (lastN n l).length = l.length - (l.length - n) := by
  simp [lastN]

theorem lastN_lastN {m n : Nat} (h : m ≤ n) (l : List α) :
    lastN m (lastN n l) = lastN m l := by
  simp only [lastN, List.drop_drop, List.length_drop]
  congr 1
  omega

theorem lastN_append_one {n : Nat} (h : 1 ≤ n) (l : List α) (a : α) :
    lastN n (l ++ [a]) = lastN (n - 1) l ++ [a] := by
  simp only [lastN, List.length_append, List.length_singleton]
  rw [List.drop_append_of_le_length (by omega)]
  congr 2
  omega

theorem useUserConfig_iff (a : AuthSnapshot) (cfg : UserConfig) :
    useUserConfig a = some cfg ↔
      a.loading = false ∧ a.isAuthenticated = true ∧
        ∃ u, a.user = some u ∧ jsTrim u.user_id ≠ "" ∧
          lowerStr (jsTrim u.user_id) ≠ "anonymous" ∧ cfg = ⟨jsTrim u.user_id⟩ := by
  constructor
  · intro h
    unfold useUserConfig at h
    split_ifs at h with hload hauth
    cases hu : a.user with
    | none => rw [hu] at h; simp at h
    | some u =>
      rw [hu] at h
      simp only at h
      split_ifs at h with hbad
      push_neg at hbad
      simp only [Option.some.injEq] at h
      refine ⟨by simpa using hload, ?_, u, rfl, hbad.1, hbad.2, h.symm⟩
      by_contra hA
      exact hauth (Or.inl (by simpa using hA))
  · rintro ⟨hload, hA, u, hu, h1, h2, hcfg⟩
    have hne : u.user_id ≠ "" := ne_empty_of_jsTrim_ne _ h1
    subst hcfg
    simp [useUserConfig, rawUserId, hu, hload, hA, hne, h1, h2]

theorem useUserConfig_user_id_ne (a : AuthSnapshot) (cfg : UserConfig)
    (h : useUserConfig a = some cfg) : cfg.user_id ≠ "" := by
  obtain ⟨-, -, u, -, hne, -, hcfg⟩ := (useUserConfig_iff a cfg).mp h
  rw [hcfg]
  exact hne

theorem threadConfig_of_ready (a : AuthSnapshot) (cfg : UserConfig)
    (h : useUserConfig a = some cfg) : threadConfig a = some cfg := by
  have hne := useUserConfig_user_id_ne a cfg h
  unfold threadConfig
  rw [h]
  simp [hne]

theorem threadConfig_isSome_iff (a : AuthSnapshot) :
    (∃ cfg, threadConfig a = some cfg) ↔
      a.loading = false ∧ a.isAuthenticated = true ∧ rawUserId a ≠ none := by
  constructor
  · rintro ⟨cfg, hcfg⟩
    unfold threadConfig at hcfg
    cases hu : useUserConfig a with
    | some c =>
      obtain ⟨hl, hA, u, huser, htrim, -, -⟩ := (useUserConfig_iff a c).mp hu
      refine ⟨hl, hA, ?_⟩
      rw [rawUserId, huser]
      simp [ne_empty_of_jsTrim_ne _ htrim]
    | none =>
      rw [hu] at hcfg
      rw [if_neg (by simp)] at hcfg
      split_ifs at hcfg with h1 h2
      push_neg at h2
      exact ⟨by simpa using h1, by simpa using h2.1, h2.2⟩
  · rintro ⟨hl, hA, hr⟩
    cases hu : useUserConfig a with
    | some c => exact ⟨c, threadConfig_of_ready a c hu⟩
    | none =>
      unfold threadConfig
      rw [hu]
      rw [if_neg (by simp)]
      rw [if_neg (by simp [hl])]
      rw [if_neg (by simp [hA, hr])]
      cases huser : a.user with
      | none => rw [rawUserId, huser] at hr; simp at hr
      | some u => exact ⟨⟨u.user_id⟩, rfl⟩

theorem rawUserId_some (a : AuthSnapshot) (uid : String)
    (h : rawUserId a = some uid) :
    ∃ u, a.user = some u ∧ u.user_id = uid ∧ uid ≠ "" := by
  unfold rawUserId at h
  cases hu : a.user with
  | none => rw [hu] at h; simp at h
  | some u =>
    rw [hu] at h
    simp only at h
    split_ifs at h with h0
    simp only [Option.some.injEq] at h
    exact ⟨u, rfl, h, h ▸ h0⟩

/-! The claim theorems. -/

/-- C1: the Identity Context Resolver (`useUserConfig`) yields a ready
context exactly when loading has finished, the user is authenticated,
and the trimmed identifier is non-empty and not `"anonymous"`
case-insensitively; the returned `user_id` is then the trimmed
identifier.  Concretely, `"  Bob  "` resolves to `"Bob"`, while
`"Anonymous"` and the empty identifier yield no usable context. -/
theorem identity_context_resolution :
    (∀ (a : AuthSnapshot) (cfg : UserConfig),
        useUserConfig a = some cfg ↔
          a.loading = false ∧ a.isAuthenticated = true ∧
            ∃ u, a.user = some u ∧ jsTrim u.user_id ≠ "" ∧
              lowerStr (jsTrim u.user_id) ≠ "anonymous" ∧
              cfg = ⟨jsTrim u.user_id⟩)
    ∧ useUserConfig ⟨some ⟨"  Bob  ", "bob", none⟩, some "tok", false, true⟩ =
        some ⟨"Bob"⟩
    ∧ useUserConfig ⟨some ⟨"Anonymous", "anon", none⟩, some "tok", false, true⟩ =
        none
    ∧ useUserConfig ⟨some ⟨"", "empty", none⟩, some "tok", false, true⟩ = none :=
  ⟨useUserConfig_iff, by decide, by decide, by decide⟩

/-- C2 counterexample: for the authenticated snapshot whose raw user
identifier is `"anonymous"`, the identity context is not ready
(`useUserConfig` yields nothing), yet the controller's `threadConfig`
still supplies a configurable — the stream is opened although the
identity context is invalid, against the claim that an invalid user id
performs no stream-open action. -/
theorem streamOpen_despite_invalid_identity :
    useUserConfig ⟨some ⟨"anonymous", "anon", none⟩, some "tok", false, true⟩ =
        none
    ∧ threadConfig ⟨some ⟨"anonymous", "anon", none⟩, some "tok", false, true⟩ =
        some ⟨"anonymous"⟩ := by decide

/-- C2 (amended): the controller opens the stream (supplies a
configurable to `useStream`) exactly when loading has finished, the user
is authenticated, and the raw user identifier is present and non-empty;
in particular an unauthenticated snapshot opens no stream, and whenever
the identity context is ready the stream is opened with exactly the
ready context.  (An authenticated non-empty but invalid identifier such
as `"anonymous"` reaches the raw fallback instead of being blocked.) -/
theorem streamOpen_gating :
    (∀ a : AuthSnapshot,
        (∃ cfg, threadConfig a = some cfg) ↔
          a.loading = false ∧ a.isAuthenticated = true ∧ rawUserId a ≠ none)
    ∧ (∀ a : AuthSnapshot, a.isAuthenticated = false → threadConfig a = none)
    ∧ (∀ (a : AuthSnapshot) (cfg : UserConfig),
        useUserConfig a = some cfg → threadConfig a = some cfg) := by
  refine ⟨threadConfig_isSome_iff, ?_, threadConfig_of_ready⟩
  intro a ha
  cases h : threadConfig a with
  | none => rfl
  | some c =>
    have := (threadConfig_isSome_iff a).mp ⟨c, h⟩
    rw [ha] at this
    simp at this

/-- C3: an error event whose text matches the two previous ring records
(with debug mode off and the stream not loading) trips the breaker: the
`shouldStop` flag is set, the repeated error is recorded, and the
rendered view is the terminal tripped view — not the retry view — whose
text is the header, the error text verbatim, and the footer stating that
execution stopped. -/
theorem breaker_trips_on_three_identical (s : BreakerState) (e : String)
    (now : Nat) (he : e ≠ "") (hlen : 2 ≤ s.errorHistory.length)
    (hsame : ∀ r ∈ lastN 2 s.errorHistory, r.error = e) :
    (onErrorEvent s e false false now).shouldStop = true
    ∧ (onErrorEvent s e false false now).repeatedError = some e
    ∧ renderError (onErrorEvent s e false false now) e false false =
        .tripped (trippedHeader ++ e ++ trippedFooter)
    ∧ renderError (onErrorEvent s e false false now) e false false ≠ .retry := by
  have hguard : ¬(e = "" ∨ (false : Bool) = true) := by simp [he]
  have hl3 : 3 ≤ (lastN 5 (s.errorHistory ++ [⟨e, now⟩])).length := by
    rw [lastN_length]
    simp only [List.length_append, List.length_cons, List.length_nil]
    omega
  have hthree : lastN 3 (lastN 5 (s.errorHistory ++ [⟨e, now⟩])) =
      lastN 2 s.errorHistory ++ [⟨e, now⟩] := by
    rw [lastN_lastN (by omega)]
    exact lastN_append_one (by omega) _ _
  have hall : (lastN 3 (lastN 5 (s.errorHistory ++ [⟨e, now⟩]))).all
      (fun r => r.error == e) = true := by
    rw [hthree, List.all_append]
    simp only [Bool.and_eq_true, List.all_eq_true]
    exact ⟨fun r hr => by simpa using hsame r hr, by simp⟩
  have hstep : onErrorEvent s e false false now =
      ⟨lastN 5 (s.errorHistory ++ [⟨e, now⟩]), some e, true⟩ := by
    simp only [onErrorEvent]
    rw [if_neg hguard, if_pos hl3, if_pos ⟨hall, trivial⟩]
  rw [hstep]
  refine ⟨rfl, rfl, ?_, ?_⟩
  · simp only [renderError]
    rw [if_neg hguard, if_pos (by simp [he])]
  · simp only [renderError]
    rw [if_neg hguard, if_pos (by simp [he])]
    simp

/-- C3 witness: two recorded `"timeout"` errors followed by a third
`"timeout"` event with debug off trip the breaker and render the
terminal view. -/
theorem breaker_trips_on_three_identical_witness :
    (onErrorEvent ⟨[⟨"timeout", 1⟩, ⟨"timeout", 2⟩], none, false⟩
        "timeout" false false 3).shouldStop = true
    ∧ (onErrorEvent ⟨[⟨"timeout", 1⟩, ⟨"timeout", 2⟩], none, false⟩
        "timeout" false false 3).repeatedError = some "timeout"
    ∧ renderError (onErrorEvent ⟨[⟨"timeout", 1⟩, ⟨"timeout", 2⟩], none, false⟩
        "timeout" false false 3) "timeout" false false =
        .tripped (trippedHeader ++ "timeout" ++ trippedFooter)
    ∧ renderError (onErrorEvent ⟨[⟨"timeout", 1⟩, ⟨"timeout", 2⟩], none, false⟩
        "timeout" false false 3) "timeout" false false ≠ .retry :=
  breaker_trips_on_three_identical ⟨[⟨"timeout", 1⟩, ⟨"timeout", 2⟩], none, false⟩
    "timeout" 3 (by decide) (by decide) (by decide)

/-- C4 counterexample: after three identical `"x"` errors and a fourth
distinct `"y"` error (debug off, not loading), the ring is not cleared —
it still holds all four records — contradicting the claim that a fourth
distinct error clears the ring. -/
theorem fourth_distinct_error_keeps_ring :
    (onErrorEvent (onErrorEvent (onErrorEvent (onErrorEvent breakerInit
        "x" false false 1) "x" false false 2) "x" false false 3)
        "y" false false 4).errorHistory =
      [⟨"x", 1⟩, ⟨"x", 2⟩, ⟨"x", 3⟩, ⟨"y", 4⟩]
    ∧ (onErrorEvent (onErrorEvent (onErrorEvent (onErrorEvent breakerInit
        "x" false false 1) "x" false false 2) "x" false false 3)
        "y" false false 4).errorHistory ≠ [] := by decide

/-- C4 (amended): a successful non-erroring transition (no error, not
loading) clears the ring entirely and untrips the breaker; a fourth
error whose text differs from the three preceding identical records
untrips the breaker (`shouldStop` and `repeatedError` reset) but leaves
the ring holding the most recent (at most 5) records. -/
theorem breaker_success_clears_and_distinct_untrips :
    (∀ s : BreakerState, onSuccessCheck s false false = breakerInit)
    ∧ (∀ (s : BreakerState) (e e' : String) (now : Nat),
        e' ≠ "" → e' ≠ e → 3 ≤ s.errorHistory.length →
        (∀ r ∈ lastN 3 s.errorHistory, r.error = e) →
        (onErrorEvent s e' false false now).shouldStop = false
        ∧ (onErrorEvent s e' false false now).repeatedError = none
        ∧ (onErrorEvent s e' false false now).errorHistory =
            lastN 5 (s.errorHistory ++ [⟨e', now⟩])) := by
  constructor
  · intro s
    simp [onSuccessCheck]
  · intro s e e' now he' hne hlen hsame
    have hguard : ¬(e' = "" ∨ (false : Bool) = true) := by simp [he']
    have hl3 : 3 ≤ (lastN 5 (s.errorHistory ++ [⟨e', now⟩])).length := by
      rw [lastN_length]
      simp only [List.length_append, List.length_cons, List.length_nil]
      omega
    have hthree : lastN 3 (lastN 5 (s.errorHistory ++ [⟨e', now⟩])) =
        lastN 2 s.errorHistory ++ [⟨e', now⟩] := by
      rw [lastN_lastN (by omega)]
      exact lastN_append_one (by omega) _ _
    have hmem : ∃ r, r ∈ lastN 2 s.errorHistory := by
      have : (lastN 2 s.errorHistory).length = 2 := by
        rw [lastN_length]; omega
      cases hx : lastN 2 s.errorHistory with
      | nil => rw [hx] at this; simp at this
      | cons r rs => exact ⟨r, hx ▸ List.mem_cons_self r rs⟩
    obtain ⟨r, hr⟩ := hmem
    have hr3 : r ∈ lastN 3 s.errorHistory := by
      have h23 : lastN 2 s.errorHistory = lastN 2 (lastN 3 s.errorHistory) :=
        (lastN_lastN (by omega) _).symm
      rw [h23, lastN] at hr
      exact List.mem_of_mem_drop hr
    have hre : r.error = e := hsame r hr3
    have hallfalse : ¬((lastN 3 (lastN 5 (s.errorHistory ++ [⟨e', now⟩]))).all
        (fun x => x.error == e') = true ∧ True) := by
      rintro ⟨hall, -⟩
      rw [hthree, List.all_append] at hall
      simp only [Bool.and_eq_true, List.all_eq_true] at hall
      have := hall.1 r hr
      rw [hre] at this
      simp at this
      exact hne this.symm
    have hstep : onErrorEvent s e' false false now =
        ⟨lastN 5 (s.errorHistory ++ [⟨e', now⟩]), none, false⟩ := by
      simp only [onErrorEvent]
      rw [if_neg hguard, if_pos hl3, if_neg hallfalse]
    rw [hstep]
    exact ⟨rfl, rfl, rfl⟩

/-- C5 counterexample: an authenticated snapshot whose user identifier
is the single space `" "` — empty after trimming, so the identity
context is not ready — is not rejected by the retry handler: the submit
is issued with the raw whitespace identifier, contradicting the claim
that an identifier that is empty after trimming is rejected. -/
theorem retry_submits_whitespace_user_id :
    useUserConfig ⟨some ⟨" ", "ws", none⟩, some "tok", false, true⟩ = none
    ∧ handleRetry ⟨some ⟨" ", "ws", none⟩, some "tok", false, true⟩ =
        .submitted ⟨" "⟩ := by decide

/-- C5 (amended): the retry handler rejects — issuing no submit — exactly
when the user is unauthenticated, the raw user identifier is missing or
empty, or the raw identifier trims case-insensitively to `"anonymous"`.
(A non-empty whitespace-only identifier, empty after trimming, is not
rejected; a rejection is a logged return, not a recorded stream error.) -/
theorem retry_rejection_characterisation (a : AuthSnapshot) :
    (∀ cfg, handleRetry a ≠ .submitted cfg) ↔
      (a.isAuthenticated = false ∨ rawUserId a = none ∨
        ∃ uid, rawUserId a = some uid ∧ lowerStr (jsTrim uid) = "anonymous") := by
  by_cases hA : a.isAuthenticated = true
  · cases hr : rawUserId a with
    | none =>
      have h1 : useUserId a = none := by simp [useUserId, hr]
      have hh : handleRetry a = .rejectedNoAuth := by
        simp [handleRetry, h1]
      constructor
      · intro _
        exact Or.inr (Or.inl rfl)
      · intro _ cfg
        rw [hh]
        simp
    | some uid =>
      obtain ⟨u, hu, huid, hne0⟩ := rawUserId_some a uid hr
      have hU : useUserId a = some uid := by simp [useUserId, hA, hr]
      have hgf : ¬(¬a.isAuthenticated = true ∨ useUserId a = none) := by
        simp [hA, hU]
      cases hc : useUserConfig a with
      | some cfg =>
        obtain ⟨-, -, u', hu', htrim, hanon, hcfg⟩ := (useUserConfig_iff a cfg).mp hc
        rw [hu] at hu'
        have huu : u' = u := (Option.some.inj hu').symm
        subst huu
        have hcond : ¬(cfg.user_id = "" ∨
            lowerStr (jsTrim cfg.user_id) = "anonymous") := by
          rw [hcfg]
          push_neg
          exact ⟨htrim, by rw [jsTrim_idem]; exact hanon⟩
        have hh : handleRetry a = .submitted cfg := by
          unfold handleRetry
          rw [if_neg hgf, hc]
          exact if_neg hcond
        constructor
        · intro h
          exact absurd hh (h cfg)
        · rintro (h | h | ⟨uid', hr', han'⟩)
          · rw [hA] at h
            exact absurd h (by simp)
          · exact absurd h (by simp)
          · have huid' : uid = uid' := Option.some.inj hr'
            rw [← huid', ← huid] at han'
            exact absurd han' hanon
      | none =>
        by_cases han : lowerStr (jsTrim uid) = "anonymous"
        · have hh : handleRetry a = .rejectedInvalidId uid := by
            unfold handleRetry
            rw [if_neg hgf, hc, hU]
            exact if_pos (Or.inr han)
          constructor
          · intro _
            exact Or.inr (Or.inr ⟨uid, rfl, han⟩)
          · intro _ cfg
            rw [hh]
            simp
        · have hh : handleRetry a = .submitted ⟨uid⟩ := by
            unfold handleRetry
            rw [if_neg hgf, hc, hU]
            exact if_neg (by push_neg; exact ⟨hne0, han⟩)
          constructor
          · intro h
            exact absurd hh (h ⟨uid⟩)
          · rintro (h | h | ⟨uid', hr', han'⟩)
            · rw [hA] at h
              exact absurd h (by simp)
            · exact absurd h (by simp)
            · have huid' : uid = uid' := Option.some.inj hr'
              rw [← huid'] at han'
              exact absurd han' han
  · have hA' : a.isAuthenticated = false := by simpa using hA
    have hh : handleRetry a = .rejectedNoAuth := by
      unfold handleRetry
      exact if_pos (Or.inl (by simp [hA']))
    constructor
    · intro _
      exact Or.inl hA'
    · intro _ cfg
      rw [hh]
      simp

/-! Lemmas about the chat history store. -/

theorem sortChats_sorted (l : List SavedChat) : (sortChats l).Sorted chatLE :=
  List.sorted_insertionSort chatLE l

theorem sortChats_perm (l : List SavedChat) : (sortChats l).Perm l :=
  List.perm_insertionSort chatLE l

theorem updateExistingChat_map_threadId (tid title : String) (now : Nat)
    (fm : Option String) (l : List SavedChat) :
    (updateExistingChat tid title now fm l).map (·.threadId) =
      l.map (·.threadId) := by
  induction l with
  | nil => rfl
  | cons c cs ih =>
    simp only [updateExistingChat]
    split_ifs with h
    · simp
    · simp [ih]

theorem updateExistingChat_length (tid title : String) (now : Nat)
    (fm : Option String) (l : List SavedChat) :
    (updateExistingChat tid title now fm l).length = l.length := by
  induction l with
  | nil => rfl
  | cons c cs ih =>
    simp only [updateExistingChat]
    split_ifs with h
    · simp
    · simp [ih]

theorem renameMap_map_threadId (tid title : String) (now : Nat)
    (l : List SavedChat) :
    ((l.map fun c => if c.threadId == tid then
        { c with title := title, updatedAt := now } else c).map (·.threadId)) =
      l.map (·.threadId) := by
  induction l with
  | nil => rfl
  | cons c cs ih =>
    simp only [List.map_cons]
    split_ifs with hc
    · rw [ih]
    · rw [ih]

theorem saveChatAll_map_threadId_perm (tid : String)
    (fm ct : Option String) (now : Nat) (ds : String) (l : List SavedChat) :
    ((saveChatAll tid fm ct now ds l).map (·.threadId)).Perm
      ((if l.any (fun c => c.threadId == tid) then l.map (·.threadId)
        else tid :: l.map (·.threadId))) := by
  unfold saveChatAll
  split_ifs with h
  · rw [← updateExistingChat_map_threadId tid
      (chatTitle fm ct ds) now fm l]
    exact (sortChats_perm _).map _
  · have := (sortChats_perm
      (⟨tid, chatTitle fm ct ds, now, now, fm⟩ :: l)).map (·.threadId)
    simpa using this

theorem saveChatAll_nodup (tid : String) (fm ct : Option String) (now : Nat)
    (ds : String) (l : List SavedChat)
    (h : (l.map (·.threadId)).Nodup) :
    ((saveChatAll tid fm ct now ds l).map (·.threadId)).Nodup := by
  have hp := saveChatAll_map_threadId_perm tid fm ct now ds l
  split_ifs at hp with hany
  · exact hp.nodup_iff.mpr h
  · refine hp.nodup_iff.mpr (List.Nodup.cons ?_ h)
    intro hmem
    rw [Bool.not_eq_true, List.any_eq_false] at hany
    obtain ⟨c, hc, hctid⟩ := List.mem_map.mp hmem
    exact absurd (by simp [hctid]) (hany c hc)

theorem nodup_take_map (l : List SavedChat) (n : Nat)
    (h : (l.map (·.threadId)).Nodup) :
    ((l.take n).map (·.threadId)).Nodup := by
  rw [List.map_take]
  exact h.sublist (List.take_sublist n _)

theorem applyOp_inv (op : HistOp) (l : List SavedChat) (h : HistoryInv l) :
    HistoryInv (applyOp op l) := by
  obtain ⟨hlen, hsort, hnodup⟩ := h
  cases op with
  | save tid fm ct now ds =>
    refine ⟨List.length_take_le _ _, ?_, ?_⟩
    · exact (sortChats_sorted _).sublist (List.take_sublist _ _)
    · exact nodup_take_map _ _ (saveChatAll_nodup tid fm ct now ds l hnodup)
  | rename tid title now =>
    refine ⟨List.length_take_le _ _, ?_, ?_⟩
    · exact (sortChats_sorted _).sublist (List.take_sublist _ _)
    · refine nodup_take_map _ _ ?_
      unfold updateChatTitleAll
      refine ((sortChats_perm _).map _).nodup_iff.mpr ?_
      rw [renameMap_map_threadId]
      exact hnodup
  | remove tid =>
    refine ⟨List.length_take_le _ _, ?_, ?_⟩
    · exact (hsort.filter _).sublist (List.take_sublist _ _)
    · refine nodup_take_map _ _ ?_
      exact hnodup.sublist ((List.filter_sublist l).map _)

theorem applyOps_inv (ops : List HistOp) (l : List SavedChat)
    (h : HistoryInv l) : HistoryInv (applyOps ops l) := by
  induction ops generalizing l with
  | nil => exact h
  | cons op ops ih => exact ih _ (applyOp_inv op l h)

theorem historyInv_nil : HistoryInv [] :=
  ⟨by simp [MAX_CHATS], List.sorted_nil, List.nodup_nil⟩

/-- C6: from any state satisfying the store invariant, every sequence of
store mutations (upsert `saveChat`, rename `updateChatTitle`, remove
`deleteChat`) preserves it — at most `MAX_CHATS` (50) records, sorted
descending by `updatedAt`, `threadId` unique; an upsert whose
`threadId` already exists updates in place, leaving the record count
unchanged and the `threadId` occurring exactly once; and the final
truncation drops only records whose `updatedAt` is no larger than that
of every kept record (the least-recently-updated excess). -/
theorem chat_history_store_invariants (ops : List HistOp)
    (s : List SavedChat) (h : HistoryInv s) :
    HistoryInv (applyOps ops s)
    ∧ (∀ (tid : String) (fm ct : Option String) (now : Nat) (ds : String),
        tid ∈ s.map (·.threadId) →
        ((saveChat tid fm ct now ds s).map (·.threadId)).count tid = 1
        ∧ (saveChat tid fm ct now ds s).length = s.length)
    ∧ (∀ (tid : String) (fm ct : Option String) (now : Nat) (ds : String),
        ∀ b ∈ (saveChatAll tid fm ct now ds s).take MAX_CHATS,
        ∀ a ∈ (saveChatAll tid fm ct now ds s).drop MAX_CHATS,
          a.updatedAt ≤ b.updatedAt) := by
  obtain ⟨hlen, hsort, hnodup⟩ := h
  refine ⟨applyOps_inv ops s ⟨hlen, hsort, hnodup⟩, ?_, ?_⟩
  · intro tid fm ct now ds hmem
    have hany : s.any (fun c => c.threadId == tid) = true := by
      rw [List.any_eq_true]
      obtain ⟨c, hc, hctid⟩ := List.mem_map.mp hmem
      exact ⟨c, hc, by simp [hctid]⟩
    have hAll_len : (saveChatAll tid fm ct now ds s).length = s.length := by
      simp only [saveChatAll]
      rw [if_pos hany]
      rw [(sortChats_perm _).length_eq]
      exact updateExistingChat_length _ _ _ _ _
    have htake : saveChat tid fm ct now ds s = saveChatAll tid fm ct now ds s := by
      unfold saveChat
      exact List.take_of_length_le (by rw [hAll_len]; exact hlen)
    have hperm := saveChatAll_map_threadId_perm tid fm ct now ds s
    rw [if_pos hany] at hperm
    constructor
    · rw [htake, hperm.count_eq]
      exact List.count_eq_one_of_mem hnodup hmem
    · rw [htake, hAll_len]
  · intro tid fm ct now ds b hb a ha
    exact (sortChats_sorted _).rel_of_mem_take_of_mem_drop hb ha

/-- C6 witness: a concrete upsert–rename–remove run from the empty store
keeps the invariant, and the in-place and truncation properties hold for
the empty store. -/
theorem chat_history_store_invariants_witness :
    HistoryInv (applyOps [HistOp.save "t" (some "hello") none 5 "d",
        HistOp.rename "t" "T" 6, HistOp.remove "u"] [])
    ∧ (∀ (tid : String) (fm ct : Option String) (now : Nat) (ds : String),
        tid ∈ ([] : List SavedChat).map (·.threadId) →
        ((saveChat tid fm ct now ds []).map (·.threadId)).count tid = 1
        ∧ (saveChat tid fm ct now ds []).length =
            ([] : List SavedChat).length)
    ∧ (∀ (tid : String) (fm ct : Option String) (now : Nat) (ds : String),
        ∀ b ∈ (saveChatAll tid fm ct now ds []).take MAX_CHATS,
        ∀ a ∈ (saveChatAll tid fm ct now ds []).drop MAX_CHATS,
          a.updatedAt ≤ b.updatedAt) :=
  chat_history_store_invariants
    [HistOp.save "t" (some "hello") none 5 "d",
     HistOp.rename "t" "T" 6, HistOp.remove "u"] [] historyInv_nil

/-- C7: upserting the same thread identifier twice from a store that did
not contain it yields exactly one record for it, whose `createdAt` is
the first call's timestamp and whose `updatedAt` is the second call's
timestamp (all stored records predate the first call and the timestamps
are in order). -/
theorem upsert_twice (s : List SavedChat) (tid : String) (m1 m2 : Option String)
    (t1 t2 : Nat) (d1 d2 : String) (hInv : HistoryInv s)
    (hmem : tid ∉ s.map (·.threadId))
    (hle : ∀ c ∈ s, c.updatedAt ≤ t1) (h12 : t1 ≤ t2) :
    ∃ c rest,
      saveChat tid m2 none t2 d2 (saveChat tid m1 none t1 d1 s) = c :: rest
      ∧ c.threadId = tid ∧ c.createdAt = t1 ∧ c.updatedAt = t2
      ∧ ((saveChat tid m2 none t2 d2 (saveChat tid m1 none t1 d1 s)).map
          (·.threadId)).count tid = 1 := by
  obtain ⟨hlen, hsort, hnodup⟩ := hInv
  have hany1 : s.any (fun c => c.threadId == tid) = false := by
    rw [List.any_eq_false]
    intro c hc
    simp only [beq_iff_eq]
    intro hct
    exact hmem (List.mem_map.mpr ⟨c, hc, hct⟩)
  have hs1All : saveChatAll tid m1 none t1 d1 s =
      (⟨tid, chatTitle m1 none d1, t1, t1, m1⟩ : SavedChat) :: sortChats s := by
    simp only [saveChatAll]
    rw [if_neg (by simp [hany1])]
    exact List.insertionSort_cons chatLE (fun b hb => hle b hb)
  have hs1 : saveChat tid m1 none t1 d1 s =
      (⟨tid, chatTitle m1 none d1, t1, t1, m1⟩ : SavedChat) ::
        (sortChats s).take 49 := by
    unfold saveChat
    rw [hs1All]
    rfl
  have htail : ∀ c ∈ (sortChats s).take 49, c ∈ s :=
    fun c hc => (sortChats_perm s).mem_iff.mp (List.mem_of_mem_take hc)
  have htail_le : ∀ c ∈ (sortChats s).take 49, c.updatedAt ≤ t2 :=
    fun c hc => Nat.le_trans (hle c (htail c hc)) h12
  have htail_ne : ∀ c ∈ (sortChats s).take 49, c.threadId ≠ tid := by
    intro c hc hct
    exact hmem (List.mem_map.mpr ⟨c, htail c hc, hct⟩)
  have hany2 : (saveChat tid m1 none t1 d1 s).any
      (fun c => c.threadId == tid) = true := by
    rw [hs1]
    simp
  have hupd : updateExistingChat tid (chatTitle m2 none d2) t2 m2
      (saveChat tid m1 none t1 d1 s) =
      (⟨tid, chatTitle m2 none d2, t1, t2, jsOrOpt m2 m1⟩ : SavedChat) ::
        (sortChats s).take 49 := by
    rw [hs1]
    simp only [updateExistingChat]
    rw [if_pos (by simp)]
  have hs2All : saveChatAll tid m2 none t2 d2 (saveChat tid m1 none t1 d1 s) =
      (⟨tid, chatTitle m2 none d2, t1, t2, jsOrOpt m2 m1⟩ : SavedChat) ::
        sortChats ((sortChats s).take 49) := by
    simp only [saveChatAll]
    rw [if_pos hany2, hupd]
    exact List.insertionSort_cons chatLE (fun b hb => htail_le b hb)
  have hlen2 : ((⟨tid, chatTitle m2 none d2, t1, t2, jsOrOpt m2 m1⟩ : SavedChat) ::
      sortChats ((sortChats s).take 49)).length ≤ MAX_CHATS := by
    rw [List.length_cons, (sortChats_perm _).length_eq]
    have := List.length_take_le 49 (sortChats s)
    simp only [MAX_CHATS]
    omega
  have hs2 : saveChat tid m2 none t2 d2 (saveChat tid m1 none t1 d1 s) =
      (⟨tid, chatTitle m2 none d2, t1, t2, jsOrOpt m2 m1⟩ : SavedChat) ::
        sortChats ((sortChats s).take 49) := by
    rw [show saveChat tid m2 none t2 d2 (saveChat tid m1 none t1 d1 s) =
        List.take MAX_CHATS (saveChatAll tid m2 none t2 d2
          (saveChat tid m1 none t1 d1 s)) from rfl, hs2All]
    exact List.take_of_length_le hlen2
  have hcount0 : ((sortChats ((sortChats s).take 49)).map (·.threadId)).count
      tid = 0 := by
    rw [List.count_eq_zero]
    intro hmem'
    obtain ⟨c, hc, hct⟩ := List.mem_map.mp hmem'
    exact htail_ne c ((sortChats_perm _).mem_iff.mp hc) hct
  refine ⟨_, _, hs2, rfl, rfl, rfl, ?_⟩
  rw [hs2]
  simp [hcount0]

/-- C7 witness: two upserts of thread `"t"` into the empty store leave
one record with `createdAt = 1` and `updatedAt = 2`. -/
theorem upsert_twice_witness :
    ∃ c rest,
      saveChat "t" (some "b") none 2 "d2"
          (saveChat "t" (some "a") none 1 "d1" []) = c :: rest
      ∧ c.threadId = "t" ∧ c.createdAt = 1 ∧ c.updatedAt = 2
      ∧ ((saveChat "t" (some "b") none 2 "d2"
          (saveChat "t" (some "a") none 1 "d1" [])).map
          (·.threadId)).count "t" = 1 :=
  upsert_twice [] "t" (some "a") (some "b") 1 2 "d1" "d2" historyInv_nil
    (by simp) (by simp) (by decide)

/-- C8: title precedence of the upsert: a non-blank explicit title wins
(trimmed, truncated to 100 characters) whatever the preview; otherwise a
usable message preview is cleaned of the task-tag markup and truncated
to 100; otherwise — a blank or absent preview, or one that strips to
nothing — the dated placeholder is used.  The last conjuncts instantiate
each case concretely. -/
theorem chat_title_precedence :
    (∀ (fm ct : Option String) (c ds : String), ct = some c → jsTrim c ≠ "" →
        chatTitle fm ct ds = jsSlice (jsTrim c) 100)
    ∧ (∀ (fm ct : Option String) (m ds : String), optNonBlank ct = false →
        fm = some m → jsTrim m ≠ "" → cleanMessage m ≠ "" →
        chatTitle fm ct ds = jsSlice (cleanMessage m) 100)
    ∧ (∀ (fm ct : Option String) (ds : String), optNonBlank ct = false →
        (optNonBlank fm = false ∨ ∃ m, fm = some m ∧ cleanMessage m = "") →
        chatTitle fm ct ds = "Чат " ++ ds)
    ∧ chatTitle (some "m") (some "  T  ") "d" = "T"
    ∧ chatTitle (some "<task>abc</task>") none "01.01" = "abc"
    ∧ chatTitle (some "<task></task>") none "01.01" = "Чат 01.01"
    ∧ chatTitle none none "01.01" = "Чат 01.01" := by
  refine ⟨?_, ?_, ?_, by decide, by decide, by decide, by decide⟩
  · intro fm ct c ds hct hc
    subst hct
    unfold chatTitle
    rw [if_pos (by simp [optNonBlank, hc])]
    rfl
  · intro fm ct m ds hctb hfm hm hclean
    subst hfm
    unfold chatTitle
    rw [if_neg (by simp [hctb]), if_pos (by simp [optNonBlank, hm])]
    simp only [Option.getD_some]
    rw [if_neg (jsSlice_ne_empty (cleanMessage m) 100 hclean (by decide))]
  · intro fm ct ds hctb hfm
    unfold chatTitle
    rw [if_neg (by simp [hctb])]
    rcases hfm with hfm | ⟨m, hm, hclean⟩
    · rw [if_neg (by simp [hfm])]
    · subst hm
      by_cases hb : optNonBlank (some m) = true
      · rw [if_pos hb,
          if_pos (by simp only [Option.getD_some]; rw [hclean]; rfl)]
      · rw [if_neg hb]

/-- C9: completing a logout clears the durable chat-history record and
leaves the in-memory view empty; a login as a different identity than
the (non-empty) one currently recorded also clears the durable record
and the view, so saved chats do not leak across identities. -/
theorem identity_scoped_history (s : AuthStoreState) :
    ((logout s).chatStorage = none ∧ chatsView (logout s) = [])
    ∧ (∀ cur uid, s.user = some cur → cur ≠ "" → cur ≠ uid →
        (login uid s).chatStorage = none ∧ chatsView (login uid s) = []) := by
  refine ⟨⟨rfl, rfl⟩, ?_⟩
  intro cur uid hcur hne hdiff
  have hst : (login uid s).chatStorage = none := by
    simp only [login, hcur]
    rw [if_pos ⟨hne, hdiff⟩]
  refine ⟨hst, ?_⟩
  have huser : (login uid s).user = some uid := rfl
  unfold chatsView
  rw [huser, hst]

/-- C9 witness: logging out with ten stored chats empties the store, and
a login as `"bob"` over `"alice"`’s stored collection clears it. -/
theorem identity_scoped_history_witness :
    ((logout ⟨some "alice", some (List.replicate 10
        (⟨"t", "T", 1, 1, none⟩ : SavedChat))⟩).chatStorage = none
      ∧ chatsView (logout ⟨some "alice", some (List.replicate 10
        (⟨"t", "T", 1, 1, none⟩ : SavedChat))⟩) = [])
    ∧ (∀ cur uid, (⟨some "alice", some (List.replicate 10
        (⟨"t", "T", 1, 1, none⟩ : SavedChat))⟩ : AuthStoreState).user =
          some cur → cur ≠ "" → cur ≠ uid →
        (login uid ⟨some "alice", some (List.replicate 10
          (⟨"t", "T", 1, 1, none⟩ : SavedChat))⟩).chatStorage = none
        ∧ chatsView (login uid ⟨some "alice", some (List.replicate 10
          (⟨"t", "T", 1, 1, none⟩ : SavedChat))⟩) = []) :=
  identity_scoped_history ⟨some "alice", some (List.replicate 10
    (⟨"t", "T", 1, 1, none⟩ : SavedChat))⟩

/-- C10: the Redis thread-registration is fire-and-forget: for every
outcome of the call the visible flow of `onThreadId` is identical — the
thread is recorded as active, navigation targets the thread view, and
the history store receives the upsert; a failing call (every non-2xx
response is turned into an error by `addThreadToRedisSession`) only adds
a diagnostic. -/
theorem redis_sync_fire_and_forget (tid : String) (a : AuthSnapshot)
    (debugMode : Bool) (res : Except String RedisSessionResponse)
    (now : Nat) (ds : String) (hist : List SavedChat) :
    ((onThreadId tid a debugMode res now ds hist).currentThreadId = some tid
      ∧ (onThreadId tid a debugMode res now ds hist).navTarget =
          some ("/threads/" ++ tid)
      ∧ (onThreadId tid a debugMode res now ds hist).history =
          saveChat tid none none now ds hist)
    ∧ (∀ e, res = .error e →
        a.isAuthenticated = true → rawUserId a ≠ none → a.token ≠ none →
        (onThreadId tid a debugMode res now ds hist).diagnostics =
          ["⚠️ Не удалось обновить Redis при создании потока: " ++ e]
        ∧ (onThreadId tid a debugMode res now ds hist).debugMessages = [])
    ∧ (∀ resp : HttpResponse, resp.ok = false →
        ∃ e, addThreadToRedisSession resp = .error e) := by
  refine ⟨?_, ?_, ?_⟩
  · cases res with
    | ok r =>
      simp only [onThreadId]
      split_ifs <;> exact ⟨rfl, rfl, rfl⟩
    | error e =>
      simp only [onThreadId]
      split_ifs <;> exact ⟨rfl, rfl, rfl⟩
  · intro e hres hA hr ht
    subst hres
    simp only [onThreadId]
    rw [if_pos ⟨hA, hr, ht⟩]
    exact ⟨rfl, rfl⟩
  · intro resp hok
    unfold addThreadToRedisSession
    rw [if_neg (by simp [hok])]
    exact ⟨_, rfl⟩

end GigaAgent
